import Mathlib

/-!
Shallow embedding of nixdoc (src/main.rs): a documentation generator that
extracts doc comments attached to identifier definitions in a Nix syntax
tree and renders them as DocBook sections.

Rust strings are modelled as `List Char` (`RStr`).  The Rust standard
library operations the source uses (`str::trim`, `str::lines`,
`str::starts_with`, `str::trim_start_matches`, slicing) are given faithful
executable models below, and each function of the source file is translated
one-to-one.
-/

/-- Rust string model: a list of characters. -/
abbrev RStr := List Char

/-- Rust `char::is_whitespace`: the Unicode White_Space property. -/
def isRustWhitespace (c : Char) : Bool :=
  let n := c.toNat
  (0x09 ≤ n && n ≤ 0x0D) || n == 0x20 || n == 0x85 || n == 0xA0 ||
  n == 0x1680 || (0x2000 ≤ n && n ≤ 0x200A) || n == 0x2028 ||
  n == 0x2029 || n == 0x202F || n == 0x205F || n == 0x3000

/-- Rust `str::trim_start`: drop leading whitespace. -/
def trimLeft (s : RStr) : RStr := s.dropWhile isRustWhitespace

/-- Rust `str::trim_end`: drop trailing whitespace. -/
def trimRight (s : RStr) : RStr := (s.reverse.dropWhile isRustWhitespace).reverse

/-- Rust `str::trim`: drop whitespace at both ends. -/
def trim (s : RStr) : RStr := trimRight (trimLeft s)

/-- Split a string at every newline character, keeping all segments
(the helper under Rust `str::lines`). -/
def splitNl : RStr → List RStr
  | [] => [[]]
  | c :: rest =>
    if c = '\n' then [] :: splitNl rest
    else
      match splitNl rest with
      | [] => [[c]]
      | seg :: segs => (c :: seg) :: segs

/-- Strip one trailing carriage return, as Rust `str::lines` does per line. -/
def stripTrailingCr (s : RStr) : RStr :=
  match s.getLast? with
  | some c => if c = '\r' then s.dropLast else s
  | none => s

/-- Rust `str::lines`: split at `\n`, drop a final empty segment (a trailing
line terminator does not open a new line), strip one trailing `\r` per line. -/
def rustLines (s : RStr) : List RStr :=
  let segs := splitNl s
  let segs := if segs.getLast? = some [] then segs.dropLast else segs
  segs.map stripTrailingCr

/-- Fuel-indexed worker for Rust `str::trim_start_matches`. -/
def trimStartMatchesGo (pat : RStr) : Nat → RStr → RStr
  | 0, s => s
  | n + 1, s =>
    if !pat.isEmpty && pat.isPrefixOf s then
      trimStartMatchesGo pat n (s.drop pat.length)
    else s

/-- Rust `str::trim_start_matches`: repeatedly strip the pattern from the
front while it is a prefix.  `s.length` fuel suffices because each strip
removes at least one character of a non-empty pattern. -/
def trimStartMatches (pat s : RStr) : RStr := trimStartMatchesGo pat s.length s

/-- The marker `"@doc "` of src/main.rs line 158. -/
def atDocMarker : RStr := ['@', 'd', 'o', 'c', ' ']

/-- The marker `"Type:"` of src/main.rs line 163. -/
def typeMarker : RStr := ['T', 'y', 'p', 'e', ':']

/-- The marker `"Example:"` of src/main.rs line 168. -/
def exampleMarker : RStr := ['E', 'x', 'a', 'm', 'p', 'l', 'e', ':']

/-- The `enum ParseState \x7b Doc, Type, Example \x7d` of `parse_doc_comment`
(`Type` and `Example` carry a prime because they are Lean keywords). -/
inductive ParseState
  | Doc
  | Type'
  | Example'
deriving DecidableEq, Repr

/-- The three mutable string accumulators of `parse_doc_comment`. -/
structure Accums where
  docAcc : RStr
  typeAcc : RStr
  exAcc : RStr
deriving DecidableEq, Repr

/-- Lines 158-161 of src/main.rs: on an `@doc ` prefix, switch to `Doc`
and strip all leading repetitions of the marker. -/
def stepDoc (p : ParseState × RStr) : ParseState × RStr :=
  if atDocMarker.isPrefixOf p.2 then
    (ParseState.Doc, trimStartMatches atDocMarker p.2)
  else p

/-- Lines 163-166 of src/main.rs: on a `Type:` prefix, switch to `Type`
and drop exactly the first five characters (`&line[5..]`). -/
def stepType (p : ParseState × RStr) : ParseState × RStr :=
  if typeMarker.isPrefixOf p.2 then (ParseState.Type', p.2.drop 5) else p

/-- Lines 168-171 of src/main.rs: on an `Example:` prefix, switch to
`Example` and strip all leading repetitions of the marker. -/
def stepExample (p : ParseState × RStr) : ParseState × RStr :=
  if exampleMarker.isPrefixOf p.2 then
    (ParseState.Example', trimStartMatches exampleMarker p.2)
  else p

/-- The three sequential marker checks applied to one trimmed line. -/
def classifyAndStrip (p : ParseState × RStr) : ParseState × RStr :=
  stepExample (stepType (stepDoc p))

/-- One iteration of the `for line in raw.trim().lines()` loop of
`parse_doc_comment`: trim the line, run the marker checks, then append the
trimmed remainder to the accumulator of the current state (`Type` with no
separator, `Doc` and `Example` followed by a newline). -/
def processLine (st : ParseState) (acc : Accums) (line : RStr) :
    ParseState × Accums :=
  let p := classifyAndStrip (st, trim line)
  match p.1 with
  | ParseState.Doc =>
      (p.1, { acc with docAcc := acc.docAcc ++ (trim p.2 ++ ['\n']) })
  | ParseState.Type' =>
      (p.1, { acc with typeAcc := acc.typeAcc ++ trim p.2 })
  | ParseState.Example' =>
      (p.1, { acc with exAcc := acc.exAcc ++ (trim p.2 ++ ['\n']) })

/-- The whole line loop of `parse_doc_comment`, threading state and
accumulators. -/
def runLines (st : ParseState) (acc : Accums) : List RStr → Accums
  | [] => acc
  | l :: ls =>
    let p := processLine st acc l
    runLines p.1 p.2 ls

/-- The accumulators after the loop of `parse_doc_comment` on `raw`:
state starts at `Doc`, all accumulators start empty, the input is trimmed
as a whole and split into lines. -/
def parseAccums (raw : RStr) : Accums :=
  runLines ParseState.Doc ⟨[], [], []⟩ (rustLines (trim raw))

/-- The `struct DocComment` of src/main.rs (`example` is a Lean keyword, hence
the prime on the field name). -/
structure DocComment where
  doc : RStr
  doc_type : Option RStr
  example' : Option RStr
deriving DecidableEq, Repr

/-- The closure `f` at line 187 of src/main.rs: `None` for an empty
accumulator, `Some` of it otherwise (no trimming). -/
def optOfStr (s : RStr) : Option RStr := if s = [] then none else some s

/-- The function `parse_doc_comment` of src/main.rs lines 147-194. -/
def parse_doc_comment (raw : RStr) : DocComment :=
  let acc := parseAccums raw
  { doc := trim acc.docAcc
    doc_type := optOfStr acc.typeAcc
    example' := optOfStr acc.exAcc }

/-- The trivia items of the rnix tokenizer as used by src/main.rs: a
comment (with its multiline flag and content) or other trivia such as
whitespace.  Only these distinctions are consumed by the source. -/
inductive Trivia
  | comment (multiline : Bool) (content : RStr)
  | whitespace (s : RStr)
deriving DecidableEq, Repr

/-- The rnix `Meta` attached to a node: its leading trivia (the only field
src/main.rs reads). -/
structure Meta where
  leading : List Trivia
deriving DecidableEq, Repr

/-- The loop of `retrieve_doc_comment` (src/main.rs lines 119-125): scan
the leading trivia in order, return the content of the first multiline
comment. -/
def retrieveDocCommentList : List Trivia → Option RStr
  | [] => none
  | Trivia.comment multiline content :: rest =>
    if multiline then some content else retrieveDocCommentList rest
  | Trivia.whitespace _ :: rest => retrieveDocCommentList rest

/-- The function `retrieve_doc_comment` of src/main.rs lines 118-128. -/
def retrieve_doc_comment (meta : Meta) : Option RStr :=
  retrieveDocCommentList meta.leading

/-- The rnix `Data` of an AST node, as matched by src/main.rs: an
identifier (with its meta and name) or anything else. -/
inductive Data
  | ident (meta : Meta) (name : RStr)
  | other
deriving DecidableEq, Repr

/-- An rnix `ASTNode`, reduced to the one field src/main.rs reads. -/
structure ASTNode where
  data : Data
deriving DecidableEq, Repr

/-- The `struct DocItem` of src/main.rs. -/
structure DocItem where
  name : RStr
  comment : DocComment
deriving DecidableEq, Repr

/-- The function `retrieve_doc_item` of src/main.rs lines 132-144: identifiers with a
leading documentation comment become a `DocItem`; everything else is
skipped. -/
def retrieve_doc_item (node : ASTNode) : Option DocItem :=
  match node.data with
  | Data.ident meta name =>
    (retrieve_doc_comment meta).map fun comment =>
      { name := name, comment := parse_doc_comment comment }
  | Data.other => none

/-- The arena walk of `main` (src/main.rs line 201-202):
`nix.arena.into_iter().filter_map(retrieve_doc_item)`. -/
def extractDocItems (arena : List ASTNode) : List DocItem :=
  arena.filterMap retrieve_doc_item

/-- The `struct Parameter` of src/main.rs. -/
structure Parameter where
  name : RStr
  description : Option RStr
  arg_type : Option RStr
deriving DecidableEq, Repr

/-- The `struct ManualEntry` of src/main.rs. -/
structure ManualEntry where
  category : RStr
  name : RStr
  fn_type : Option RStr
  description : RStr
  parameters : List Parameter
deriving DecidableEq, Repr

/-- The closure of `main` (src/main.rs lines 203-209) building one
`ManualEntry` from a `DocItem` and the run-level category. -/
def toManualEntry (category : RStr) (d : DocItem) : ManualEntry :=
  { category := category
    name := d.name
    fn_type := d.comment.doc_type
    description := d.comment.doc
    parameters := [] }

/-- The `entries` pipeline of `main` (src/main.rs lines 201-210). -/
def mainEntries (category : RStr) (arena : List ASTNode) : List ManualEntry :=
  (extractDocItems arena).map (toManualEntry category)

/-- The event interface of the xml writer consumed by src/main.rs. -/
inductive XmlEvent
  | startElement (name : RStr) (attrs : List (RStr × RStr))
  | characters (s : RStr)
  | endElement
deriving DecidableEq, Repr

/-- The method `ManualEntry::write_section_xml` of src/main.rs lines 80-113, as the
ordered sequence of events written to the xml sink. -/
def write_section_xml (e : ManualEntry) : List XmlEvent :=
  let ident := "lib.".toList ++ e.category ++ ".".toList ++ e.name
  [XmlEvent.startElement ("section".toList)
      [("xml:id".toList, "function-library-".toList ++ ident)],
   XmlEvent.startElement ("title".toList) [],
   XmlEvent.startElement ("function".toList) [],
   XmlEvent.characters ident,
   XmlEvent.endElement,
   XmlEvent.endElement] ++
  (match e.fn_type with
   | some t =>
     [XmlEvent.startElement ("subtitle".toList) [],
      XmlEvent.startElement ("literal".toList) [],
      XmlEvent.characters t,
      XmlEvent.endElement,
      XmlEvent.endElement]
   | none => []) ++
  [XmlEvent.startElement ("para".toList) [],
   XmlEvent.characters e.description,
   XmlEvent.endElement,
   XmlEvent.endElement]

/-- Specification-side classifier for claim C5: a trivia item is a block
comment when it is a comment with the multiline flag set. -/
def isBlockComment : Trivia → Bool
  | Trivia.comment multiline _ => multiline
  | Trivia.whitespace _ => false

/-- Specification-side accessor for claim C5: the raw content of a trivia
item. -/
def triviaContent : Trivia → RStr
  | Trivia.comment _ content => content
  | Trivia.whitespace s => s

/-- Specification-side expected `doc` accumulator for claim C4: each line
trimmed and followed by a newline, concatenated. -/
def docExpected : List RStr → RStr
  | [] => []
  | l :: ls => (trim l ++ ['\n']) ++ docExpected ls

/-- Dropping a satisfied prefix twice is the same as dropping it once. -/
lemma dropWhile_idem {α : Type} (p : α → Bool) (l : List α) :
    (l.dropWhile p).dropWhile p = l.dropWhile p := by
  induction l with
  | nil => rfl
  | cons a l ih =>
    by_cases h : p a
    · simp [List.dropWhile_cons_of_pos h, ih]
    · simp [List.dropWhile_cons_of_neg h]

/-- The head of a `dropWhile` result does not satisfy the predicate. -/
lemma dropWhile_head_false {α : Type} {p : α → Bool} {l : List α} {b : α}
    {t : List α} (h : l.dropWhile p = b :: t) : p b = false := by
  induction l with
  | nil => simp [List.dropWhile] at h
  | cons a l ih =>
    rw [List.dropWhile_cons] at h
    by_cases hpa : p a
    · rw [if_pos hpa] at h
      exact ih h
    · rw [if_neg hpa] at h
      cases h
      simpa using hpa

/-- The function `trimRight` yields the empty string exactly when every character is
whitespace. -/
lemma trimRight_eq_nil_iff (s : RStr) :
    trimRight s = [] ↔ ∀ c ∈ s, isRustWhitespace c = true := by
  unfold trimRight
  rw [List.reverse_eq_nil_iff, List.dropWhile_eq_nil_iff]
  constructor
  · intro h c hc
    exact h c (List.mem_reverse.mpr hc)
  · intro h c hc
    exact h c (List.mem_reverse.mp hc)

/-- The function `trim` yields the empty string exactly when every character is
whitespace. -/
lemma trim_eq_nil_iff (s : RStr) :
    trim s = [] ↔ ∀ c ∈ s, isRustWhitespace c = true := by
  unfold trim
  rw [trimRight_eq_nil_iff]
  constructor
  · intro h c hc
    have hsplit := List.takeWhile_append_dropWhile (p := isRustWhitespace) (l := s)
    rcases List.mem_append.mp (by rw [hsplit]; exact hc) with h1 | h2
    · exact List.mem_takeWhile_imp h1
    · exact h c h2
  · intro h c hc
    exact h c (List.dropWhile_subset _ hc)

/-- Right-trimming is idempotent. -/
lemma trimRight_idem (s : RStr) : trimRight (trimRight s) = trimRight s := by
  unfold trimRight
  rw [List.reverse_reverse, dropWhile_idem]

/-- A nonempty `trimRight` result keeps the head of its input. -/
lemma trimRight_head (u : RStr) (b : Char) (t : RStr)
    (h : trimRight u = b :: t) : ∃ t', u = b :: t' := by
  unfold trimRight at h
  have h2 : u.reverse.dropWhile isRustWhitespace = (b :: t).reverse := by
    rw [← h, List.reverse_reverse]
  have h3 : u.reverse
      = u.reverse.takeWhile isRustWhitespace ++ (b :: t).reverse := by
    rw [← h2, List.takeWhile_append_dropWhile]
  refine ⟨t ++ (u.reverse.takeWhile isRustWhitespace).reverse, ?_⟩
  have h4 : u = u.reverse.reverse := (List.reverse_reverse u).symm
  conv_lhs => rw [h4, h3]
  rw [List.reverse_append, List.reverse_reverse]
  simp

/-- A trimmed string has no leading whitespace left. -/
lemma trimLeft_trim (s : RStr) : trimLeft (trim s) = trim s := by
  rcases h : trim s with _ | ⟨b, t⟩
  · rfl
  · have h' : trimRight (trimLeft s) = b :: t := h
    obtain ⟨t', ht'⟩ := trimRight_head _ _ _ h'
    have hb : isRustWhitespace b = false :=
      dropWhile_head_false (p := isRustWhitespace) (l := s) ht'
    unfold trimLeft
    rw [List.dropWhile_cons_of_neg (by simp [hb])]

/-- Rust `trim` is idempotent. -/
lemma trim_idem (s : RStr) : trim (trim s) = trim s := by
  show trimRight (trimLeft (trim s)) = trim s
  rw [trimLeft_trim]
  show trimRight (trimRight (trimLeft s)) = trim s
  rw [trimRight_idem]
  rfl

/-- Any sufficient fuel computes `trimStartMatches`. -/
lemma trimStartMatchesGo_of_le (pat : RStr) (n : Nat) :
    ∀ s : RStr, s.length ≤ n →
      trimStartMatchesGo pat n s = trimStartMatches pat s := by
  induction n using Nat.strong_induction_on with
  | _ n ih =>
    intro s hs
    cases n with
    | zero =>
      have hnil : s = [] := List.length_eq_zero.mp (Nat.le_zero.mp hs)
      subst hnil
      rfl
    | succ m =>
      show trimStartMatchesGo pat (m + 1) s = trimStartMatchesGo pat s.length s
      by_cases hc : (!pat.isEmpty && pat.isPrefixOf s) = true
      · have hpre : pat.isPrefixOf s = true := (Bool.and_eq_true _ _ |>.mp hc).2
        have hpat : pat ≠ [] := fun he => by simp [he] at hc
        have hlen : pat.length ≤ s.length :=
          (List.isPrefixOf_iff_prefix.mp hpre).length_le
        have hpos : 0 < pat.length := List.length_pos.mpr hpat
        have hd : (s.drop pat.length).length = s.length - pat.length :=
          List.length_drop ..
        obtain ⟨k, hk⟩ : ∃ k, s.length = k + 1 := ⟨s.length - 1, by omega⟩
        have e1 : trimStartMatchesGo pat (m + 1) s
            = trimStartMatchesGo pat m (s.drop pat.length) := by
          rw [trimStartMatchesGo, if_pos hc]
        have e2 : trimStartMatchesGo pat (k + 1) s
            = trimStartMatchesGo pat k (s.drop pat.length) := by
          rw [trimStartMatchesGo, if_pos hc]
        rw [e1, hk, e2, ih m (Nat.lt_succ_self m) _ (by omega),
          ih k (by omega) _ (by omega)]
      · have e1 : trimStartMatchesGo pat (m + 1) s = s := by
          rw [trimStartMatchesGo, if_neg hc]
        rcases hs0 : s.length with _ | k
        · have hnil : s = [] := List.length_eq_zero.mp hs0
          subst hnil
          rw [e1]
          rfl
        · have e2 : trimStartMatchesGo pat (k + 1) s = s := by
            rw [trimStartMatchesGo, if_neg hc]
          rw [e1, e2]

/-- Stripping a leading occurrence of a non-empty pattern. -/
lemma trimStartMatches_cons_append (c : Char) (p s : RStr) :
    trimStartMatches (c :: p) ((c :: p) ++ s) = trimStartMatches (c :: p) s := by
  unfold trimStartMatches
  have hlen : ((c :: p) ++ s).length = (p.length + s.length) + 1 := by
    simp [List.length_append]
  rw [hlen]
  rw [show trimStartMatchesGo (c :: p) (p.length + s.length + 1) ((c :: p) ++ s)
      = trimStartMatchesGo (c :: p) (p.length + s.length)
          (((c :: p) ++ s).drop (c :: p).length) by
    rw [trimStartMatchesGo, if_pos (by simp [List.isPrefixOf_iff_prefix])]]
  rw [List.drop_left]
  exact trimStartMatchesGo_of_le _ _ _ (Nat.le_add_left s.length p.length)

/-- A prefix check fails as soon as the heads differ. -/
lemma not_isPrefixOf_of_head_ne {a b : Char} (p s : RStr)
    (h : (a == b) = false) : List.isPrefixOf (a :: p) (b :: s) = false := by
  show (a == b && List.isPrefixOf p s) = false
  rw [h, Bool.false_and]

/-- Unfolding one loop iteration. -/
lemma runLines_cons (st : ParseState) (acc : Accums) (l : RStr)
    (ls : List RStr) :
    runLines st acc (l :: ls)
      = runLines (processLine st acc l).1 (processLine st acc l).2 ls := rfl

/-- Evaluating `processLine` when the marker checks end in the `Doc` state. -/
lemma processLine_doc (st : ParseState) (acc : Accums) (l l' : RStr)
    (hp : classifyAndStrip (st, trim l) = (ParseState.Doc, l')) :
    processLine st acc l
      = (ParseState.Doc,
         { acc with docAcc := acc.docAcc ++ (trim l' ++ ['\n']) }) := by
  simp [processLine, hp]

/-- Evaluating `processLine` when the marker checks end in the `Type` state. -/
lemma processLine_type (st : ParseState) (acc : Accums) (l l' : RStr)
    (hp : classifyAndStrip (st, trim l) = (ParseState.Type', l')) :
    processLine st acc l
      = (ParseState.Type', { acc with typeAcc := acc.typeAcc ++ trim l' }) := by
  simp [processLine, hp]

/-- Evaluating `processLine` when the marker checks end in the `Example` state. -/
lemma processLine_example (st : ParseState) (acc : Accums) (l l' : RStr)
    (hp : classifyAndStrip (st, trim l) = (ParseState.Example', l')) :
    processLine st acc l
      = (ParseState.Example',
         { acc with exAcc := acc.exAcc ++ (trim l' ++ ['\n']) }) := by
  simp [processLine, hp]

/-- Loop invariant: the example accumulator is empty or ends in a newline,
because every append in the `Example` state pushes a final newline. -/
lemma runLines_exAcc_last (ls : List RStr) :
    ∀ (st : ParseState) (acc : Accums),
      (acc.exAcc = [] ∨ acc.exAcc.getLast? = some '\n') →
      ((runLines st acc ls).exAcc = []
        ∨ (runLines st acc ls).exAcc.getLast? = some '\n') := by
  induction ls with
  | nil => intro st acc h; exact h
  | cons l ls ih =>
    intro st acc h
    rw [runLines_cons]
    rcases hp : classifyAndStrip (st, trim l) with ⟨st', l'⟩
    cases st' with
    | Doc =>
      rw [processLine_doc st acc l l' hp]
      exact ih _ _ h
    | Type' =>
      rw [processLine_type st acc l l' hp]
      exact ih _ _ h
    | Example' =>
      rw [processLine_example st acc l l' hp]
      apply ih
      right
      show (acc.exAcc ++ (trim l' ++ ['\n'])).getLast? = some '\n'
      rw [← List.append_assoc]
      exact List.getLast?_concat _

/-- Loop invariant: the type accumulator is empty or holds a non-whitespace
character, because every appended piece is itself trimmed. -/
lemma runLines_typeAcc_nonws (ls : List RStr) :
    ∀ (st : ParseState) (acc : Accums),
      (acc.typeAcc = [] ∨ ∃ c ∈ acc.typeAcc, isRustWhitespace c = false) →
      ((runLines st acc ls).typeAcc = []
        ∨ ∃ c ∈ (runLines st acc ls).typeAcc, isRustWhitespace c = false) := by
  induction ls with
  | nil => intro st acc h; exact h
  | cons l ls ih =>
    intro st acc h
    rw [runLines_cons]
    rcases hp : classifyAndStrip (st, trim l) with ⟨st', l'⟩
    cases st' with
    | Doc =>
      rw [processLine_doc st acc l l' hp]
      exact ih _ _ h
    | Example' =>
      rw [processLine_example st acc l l' hp]
      exact ih _ _ h
    | Type' =>
      rw [processLine_type st acc l l' hp]
      apply ih
      show (acc.typeAcc ++ trim l') = []
        ∨ ∃ c ∈ acc.typeAcc ++ trim l', isRustWhitespace c = false
      rcases h with h0 | ⟨c, hc, hcw⟩
      · rw [h0, List.nil_append]
        by_cases ht : trim l' = []
        · exact Or.inl ht
        · right
          have hne : trim (trim l') ≠ [] := by rw [trim_idem]; exact ht
          have hnall : ¬ ∀ c ∈ trim l', isRustWhitespace c = true :=
            fun hall => hne ((trim_eq_nil_iff _).mpr hall)
          push_neg at hnall
          obtain ⟨c, hc, hcw⟩ := hnall
          exact ⟨c, hc, by simpa using hcw⟩
      · exact Or.inr ⟨c, List.mem_append_left _ hc, hcw⟩

/-- Loop invariant for marker-free input: the state stays `Doc`, the type
and example accumulators stay put, and the doc accumulator collects each
trimmed line followed by a newline. -/
lemma runLines_doc_only (ls : List RStr) :
    ∀ acc : Accums,
      (∀ l ∈ ls,
        atDocMarker.isPrefixOf (trim l) = false
        ∧ typeMarker.isPrefixOf (trim l) = false
        ∧ exampleMarker.isPrefixOf (trim l) = false) →
      runLines ParseState.Doc acc ls
        = { docAcc := acc.docAcc ++ docExpected ls,
            typeAcc := acc.typeAcc, exAcc := acc.exAcc } := by
  induction ls with
  | nil =>
    intro acc h
    simp [runLines, docExpected]
  | cons l ls ih =>
    intro acc h
    obtain ⟨h1, h2, h3⟩ := h l (List.mem_cons_self l ls)
    have hcs : classifyAndStrip (ParseState.Doc, trim l)
        = (ParseState.Doc, trim l) := by
      unfold classifyAndStrip stepDoc stepType stepExample
      simp [h1, h2, h3]
    rw [runLines_cons, processLine_doc _ _ _ _ hcs]
    rw [ih _ (fun x hx => h x (List.mem_cons_of_mem l hx))]
    simp [docExpected, trim_idem, List.append_assoc]

/-- The trivia scan returns the content of the first block comment, if
any. -/
lemma retrieveDocCommentList_eq (l : List Trivia) :
    retrieveDocCommentList l = (l.find? isBlockComment).map triviaContent := by
  induction l with
  | nil => rfl
  | cons t rest ih =>
    cases t with
    | comment m c =>
      cases m with
      | true =>
        simp [retrieveDocCommentList, List.find?, isBlockComment, triviaContent]
      | false =>
        simp [retrieveDocCommentList, List.find?, isBlockComment, ih]
    | whitespace s =>
      simp [retrieveDocCommentList, List.find?, isBlockComment, ih]

/-- C1: for the input `"Type:\n  a ->\n  b"` (a `Type:` line followed by
continuation lines before any other marker), `parse_doc_comment` returns
`doc_type = some "a ->b"`: the continuation lines are concatenated into the
type accumulator with no inserted separator. -/
theorem type_lines_concatenated_claim1 :
    (parse_doc_comment ("Type:\n  a ->\n  b".toList)).doc_type
      = some ("a ->b".toList) := by decide

/-- C2 counterexample: for the input `"Example:"`, the example field is
`some "\n"`, a string that is empty after trimming (all-whitespace), so the
claimed invariant "each of `doc_type`/`example` is `None` iff its
accumulated text is empty after trimming, never `Some` of an
empty-or-all-whitespace string" fails for `example`. -/
theorem optional_fields_counterexample_claim2 :
    (parse_doc_comment ("Example:".toList)).example' = some ['\n']
    ∧ trim ['\n'] = [] := by decide

/-- C2 amended: `doc_type` is `none` iff its accumulated text is empty
after trimming (and is never `some` of an all-whitespace string, because
every appended piece is trimmed and unseparated), while `example` is
`none` iff its accumulated text is empty WITHOUT trimming — the example
accumulator can be non-empty yet all-whitespace, in which case `example`
is `some` of that whitespace-only string. -/
theorem optional_fields_amended_claim2 (raw : RStr) :
    ((parse_doc_comment raw).doc_type = none
        ↔ trim (parseAccums raw).typeAcc = [])
    ∧ ((parse_doc_comment raw).example' = none
        ↔ (parseAccums raw).exAcc = [])
    ∧ (∀ s : RStr, (parse_doc_comment raw).doc_type = some s → trim s ≠ []) := by
  have hinv : (parseAccums raw).typeAcc = []
      ∨ ∃ c ∈ (parseAccums raw).typeAcc, isRustWhitespace c = false :=
    runLines_typeAcc_nonws (rustLines (trim raw)) ParseState.Doc ⟨[], [], []⟩
      (Or.inl rfl)
  have hne : (parseAccums raw).typeAcc ≠ [] →
      trim (parseAccums raw).typeAcc ≠ [] := by
    intro hx ht
    rcases hinv with h0 | ⟨c, hc, hcw⟩
    · exact hx h0
    · have hw := (trim_eq_nil_iff _).mp ht c hc
      rw [hcw] at hw
      cases hw
  refine ⟨?_, ?_, ?_⟩
  · show optOfStr (parseAccums raw).typeAcc = none ↔ _
    unfold optOfStr
    by_cases hx : (parseAccums raw).typeAcc = []
    · rw [hx]
      simp [show trim ([] : RStr) = [] from rfl]
    · simp [hx, hne hx]
  · show optOfStr (parseAccums raw).exAcc = none ↔ _
    unfold optOfStr
    by_cases hx : (parseAccums raw).exAcc = [] <;> simp [hx]
  · intro s hs
    have hs' : optOfStr (parseAccums raw).typeAcc = some s := hs
    unfold optOfStr at hs'
    by_cases hx : (parseAccums raw).typeAcc = []
    · rw [if_pos hx] at hs'
      cases hs'
    · rw [if_neg hx] at hs'
      injection hs' with he
      rw [← he]
      exact hne hx

/-- C3 counterexample: for the input `"Example:\nfoo\nbar"`,
`parse_doc_comment` does NOT return `example = some "foo\nbar"`. -/
theorem example_newlines_counterexample_claim3 :
    (parse_doc_comment ("Example:\nfoo\nbar".toList)).example'
      ≠ some ("foo\nbar".toList) := by decide

/-- C3 amended: for the input `"Example:\nfoo\nbar"`, `parse_doc_comment`
returns `example = some "\nfoo\nbar\n"`: the newline between the example
lines is preserved, but a leading newline (from the empty remainder of the
`Example:` marker line) and a trailing newline (pushed after every
appended example line) are also present. -/
theorem example_newlines_amended_claim3 :
    (parse_doc_comment ("Example:\nfoo\nbar".toList)).example'
      = some ("\nfoo\nbar\n".toList) := by decide

/-- C4 counterexample: in the input `"a\n Type: b"` no (raw) line starts
with any of `"@doc "`, `"Type:"`, `"Example:"`, yet `parse_doc_comment`
returns `doc_type = some "b"` (not `none`) and `doc = "a"` (not the whole
trimmed input `"a\n Type: b"`): lines are trimmed before the marker checks
and before being appended. -/
theorem no_marker_counterexample_claim4 :
    (∀ l ∈ rustLines ("a\n Type: b".toList),
      atDocMarker.isPrefixOf l = false
      ∧ typeMarker.isPrefixOf l = false
      ∧ exampleMarker.isPrefixOf l = false)
    ∧ trim ("a\n Type: b".toList) = "a\n Type: b".toList
    ∧ (parse_doc_comment ("a\n Type: b".toList)).doc_type = some ("b".toList)
    ∧ (parse_doc_comment ("a\n Type: b".toList)).doc = "a".toList := by decide

/-- C4 amended: for every input in which no line of the trimmed input,
once that line is itself trimmed, starts with `"@doc "`, `"Type:"` or
`"Example:"`, `parse_doc_comment` returns `doc_type = none`,
`example = none`, and `doc` equal to the trimmed concatenation of the
individually trimmed lines each followed by a newline (this equals the
whole trimmed input exactly when its lines carry no leading or trailing
whitespace of their own). -/
theorem no_marker_amended_claim4 (raw : RStr)
    (h : ∀ l ∈ rustLines (trim raw),
      atDocMarker.isPrefixOf (trim l) = false
      ∧ typeMarker.isPrefixOf (trim l) = false
      ∧ exampleMarker.isPrefixOf (trim l) = false) :
    parse_doc_comment raw
      = { doc := trim (docExpected (rustLines (trim raw))),
          doc_type := none, example' := none } := by
  have hr := runLines_doc_only (rustLines (trim raw)) ⟨[], [], []⟩ h
  have hp : parseAccums raw
      = { docAcc := [] ++ docExpected (rustLines (trim raw)),
          typeAcc := [], exAcc := [] } := hr
  show ({ doc := trim (parseAccums raw).docAcc,
          doc_type := optOfStr (parseAccums raw).typeAcc,
          example' := optOfStr (parseAccums raw).exAcc } : DocComment) = _
  rw [hp]
  simp [optOfStr]

/-- C4 witness: the amended statement applied to the marker-free input
`"hello\nworld"`. -/
theorem no_marker_amended_witness_claim4 :
    parse_doc_comment ("hello\nworld".toList)
      = { doc := trim (docExpected (rustLines (trim ("hello\nworld".toList)))),
          doc_type := none, example' := none } :=
  no_marker_amended_claim4 ("hello\nworld".toList) (by decide)

/-- C5: `retrieve_doc_comment` returns the content of the first block
(multiline) comment among the leading trivia, and `none` when there is no
block comment; line comments and whitespace trivia are skipped and no
filtering is applied to the returned content. -/
theorem first_block_comment_claim5 (m : Meta) :
    retrieve_doc_comment m
      = (m.leading.find? isBlockComment).map triviaContent :=
  retrieveDocCommentList_eq m.leading

/-- C6: for a source tree defining identifiers `a`, `b`, `c` in that order
where only `a` and `c` carry a leading block comment (`b` has only a line
comment), the extraction pipeline produces exactly the `DocItem` sequence
`[a, c]`, preserving source order and silently omitting `b`. -/
theorem extraction_order_claim6 :
    extractDocItems
      [⟨Data.other⟩,
       ⟨Data.ident ⟨[Trivia.comment true ("da".toList)]⟩ ("a".toList)⟩,
       ⟨Data.ident ⟨[Trivia.comment false ("nb".toList)]⟩ ("b".toList)⟩,
       ⟨Data.ident ⟨[Trivia.whitespace (" ".toList),
                     Trivia.comment true ("dc".toList)]⟩ ("c".toList)⟩]
      = [⟨"a".toList, parse_doc_comment ("da".toList)⟩,
         ⟨"c".toList, parse_doc_comment ("dc".toList)⟩] := by decide

/-- C7: for a `ManualEntry` with category `"strings"` and name `"concat"`,
`write_section_xml` opens a section whose `xml:id` is exactly
`"function-library-lib.strings.concat"` and whose title holds a `function`
element with text exactly `"lib.strings.concat"`; a `subtitle` element is
emitted iff `fn_type` is present. -/
theorem section_xml_claim7 (ft : Option RStr) (desc : RStr)
    (ps : List Parameter) :
    (write_section_xml ⟨"strings".toList, "concat".toList, ft, desc, ps⟩).take 6
      = [XmlEvent.startElement ("section".toList)
           [("xml:id".toList, "function-library-lib.strings.concat".toList)],
         XmlEvent.startElement ("title".toList) [],
         XmlEvent.startElement ("function".toList) [],
         XmlEvent.characters ("lib.strings.concat".toList),
         XmlEvent.endElement, XmlEvent.endElement]
    ∧ ((XmlEvent.startElement ("subtitle".toList) []
          ∈ write_section_xml ⟨"strings".toList, "concat".toList, ft, desc, ps⟩)
        ↔ ft.isSome = true) := by
  cases ft with
  | none =>
    refine ⟨rfl, ?_⟩
    simp [write_section_xml]
  | some t =>
    refine ⟨rfl, ?_⟩
    simp [write_section_xml]

/-- C8: the `DocItem` to `ManualEntry` mapping of `main` is pure and
total: the entry list is exactly the map of the extracted items (length
preserved, no filtering), the run-level category is copied into every
entry, name/description/fn_type come from the item, and `parameters` is
always empty. -/
theorem manual_entry_total_claim8 (cat : RStr) (arena : List ASTNode) :
    mainEntries cat arena
      = (arena.filterMap retrieve_doc_item).map (toManualEntry cat)
    ∧ (mainEntries cat arena).length = (extractDocItems arena).length
    ∧ ∀ d : DocItem,
        (toManualEntry cat d).category = cat
        ∧ (toManualEntry cat d).name = d.name
        ∧ (toManualEntry cat d).fn_type = d.comment.doc_type
        ∧ (toManualEntry cat d).description = d.comment.doc
        ∧ (toManualEntry cat d).parameters = [] := by
  refine ⟨rfl, ?_, fun d => ⟨rfl, rfl, rfl, rfl, rfl⟩⟩
  simp [mainEntries, extractDocItems]

/-- C9: whenever `parse_doc_comment` returns `example = some e`, the
string `e` ends with a newline: every appended example line pushes a final
`'\n'` and the accumulator is returned untrimmed. -/
theorem example_trailing_newline_claim9 (raw e : RStr)
    (h : (parse_doc_comment raw).example' = some e) :
    e.getLast? = some '\n' := by
  have hinv : (parseAccums raw).exAcc = []
      ∨ (parseAccums raw).exAcc.getLast? = some '\n' :=
    runLines_exAcc_last (rustLines (trim raw)) ParseState.Doc ⟨[], [], []⟩
      (Or.inl rfl)
  have h' : optOfStr (parseAccums raw).exAcc = some e := h
  unfold optOfStr at h'
  by_cases hx : (parseAccums raw).exAcc = []
  · rw [if_pos hx] at h'
    cases h'
  · rw [if_neg hx] at h'
    injection h' with he
    rcases hinv with h0 | h0
    · exact absurd h0 hx
    · rw [← he]
      exact h0

/-- C9 witness: the input `"Example:"` yields `example = some "\n"`,
which ends in a newline. -/
theorem example_trailing_newline_witness_claim9 :
    (['\n'] : RStr).getLast? = some '\n' :=
  example_trailing_newline_claim9 ("Example:".toList) ['\n'] (by decide)

/-- C10: the `@doc ` and `Example:` markers are stripped repeatedly
(processing a line starting with a doubled marker equals processing it
with a single one), while `Type:` is stripped exactly once (a line
starting `Type:Type:` keeps one `Type:` in the appended remainder). -/
theorem marker_stripping_claim10 (st : ParseState) (r : RStr) :
    classifyAndStrip (st, atDocMarker ++ atDocMarker ++ r)
        = classifyAndStrip (st, atDocMarker ++ r)
    ∧ classifyAndStrip (st, exampleMarker ++ exampleMarker ++ r)
        = classifyAndStrip (st, exampleMarker ++ r)
    ∧ classifyAndStrip (st, typeMarker ++ typeMarker ++ r)
        = (ParseState.Type', typeMarker ++ r) := by
  refine ⟨?_, ?_, ?_⟩
  · have hpre1 : atDocMarker.isPrefixOf (atDocMarker ++ (atDocMarker ++ r))
        = true := by simp [List.isPrefixOf_iff_prefix]
    have hpre2 : atDocMarker.isPrefixOf (atDocMarker ++ r) = true := by
      simp [List.isPrefixOf_iff_prefix]
    have k1 : ∀ x : RStr, trimStartMatches atDocMarker (atDocMarker ++ x)
        = trimStartMatches atDocMarker x :=
      fun x => trimStartMatches_cons_append '@' (['d', 'o', 'c', ' ']) x
    simp only [classifyAndStrip, stepDoc]
    simp [hpre1, hpre2, k1]
  · have hnd1 : atDocMarker.isPrefixOf (exampleMarker ++ (exampleMarker ++ r))
        = false := not_isPrefixOf_of_head_ne _ _ (by decide)
    have hnd2 : atDocMarker.isPrefixOf (exampleMarker ++ r) = false :=
      not_isPrefixOf_of_head_ne _ _ (by decide)
    have hnt1 : typeMarker.isPrefixOf (exampleMarker ++ (exampleMarker ++ r))
        = false := not_isPrefixOf_of_head_ne _ _ (by decide)
    have hnt2 : typeMarker.isPrefixOf (exampleMarker ++ r) = false :=
      not_isPrefixOf_of_head_ne _ _ (by decide)
    have hpe1 : exampleMarker.isPrefixOf (exampleMarker ++ (exampleMarker ++ r))
        = true := by simp [List.isPrefixOf_iff_prefix]
    have hpe2 : exampleMarker.isPrefixOf (exampleMarker ++ r) = true := by
      simp [List.isPrefixOf_iff_prefix]
    have k2 : ∀ x : RStr, trimStartMatches exampleMarker (exampleMarker ++ x)
        = trimStartMatches exampleMarker x :=
      fun x => trimStartMatches_cons_append 'E'
        (['x', 'a', 'm', 'p', 'l', 'e', ':']) x
    simp only [classifyAndStrip, stepDoc, stepType, stepExample]
    simp [hnd1, hnd2, hnt1, hnt2, hpe1, hpe2, k2]
  · have h1 : atDocMarker.isPrefixOf (typeMarker ++ (typeMarker ++ r))
        = false := not_isPrefixOf_of_head_ne _ _ (by decide)
    have h2 : typeMarker.isPrefixOf (typeMarker ++ (typeMarker ++ r))
        = true := by simp [List.isPrefixOf_iff_prefix]
    have h3 : exampleMarker.isPrefixOf (typeMarker ++ r) = false :=
      not_isPrefixOf_of_head_ne _ _ (by decide)
    have hd : (typeMarker ++ (typeMarker ++ r)).drop 5 = typeMarker ++ r :=
      List.drop_left typeMarker (typeMarker ++ r)
    simp only [classifyAndStrip, stepDoc, stepType, stepExample]
    simp [h1, h2, h3, hd]
